import Mathlib

/-!
Verification of the inkfinite desktop backend file-operations facade
(`src/apps/desktop/src-tauri/src/lib.rs`).

The Rust code exposes four commands: `read_directory`, `rename_file`,
`delete_file` and `pick_workspace_directory`.  We embed them shallowly:

* file and directory names are lists of characters (`List Char`), paths are
  opaque `String`s;
* the file-system state seen by `rename_file` / `delete_file` is a function
  from paths to an optional node (`FS`); the two commands return the new
  state together with the `Result` value, the state being returned unchanged
  on every error path (the Rust code performs no file-system call there);
* the world observed by `read_directory` is the metadata of the target path
  plus the outcome of `fs::read_dir` — a list of fallible entries, each
  carrying a fallible metadata fetch, mirroring `io::Result` with
  `Except String`;
* the folder picker is a function of the dialog outcome
  (`blocking_pick_folder` returns an `Option`, a dialog failure included).
-/

/-- File type reported by `metadata`: `is_file()`, `is_dir()`, or neither
(e.g. a symlink), which Rust's `Metadata` allows. -/
inductive FileType where
  | file : FileType
  | dir : FileType
  | other : FileType
deriving DecidableEq, Repr

def FileType.isFile : FileType → Bool
  | FileType.file => true
  | _ => false

def FileType.isDir : FileType → Bool
  | FileType.dir => true
  | _ => false

/-- The `FileEntry` struct returned by `read_directory`. -/
structure FileEntry where
  path : String
  name : List Char
  is_dir : Bool
deriving DecidableEq, Repr

deriving instance DecidableEq for Except

/-- One item yielded by iterating `fs::read_dir`: its path, its file name,
and the (fallible) result of `entry.metadata()`. -/
structure RawEntry where
  path : String
  name : List Char
  meta : Except String FileType
deriving DecidableEq, Repr

/-- The file-system facts `read_directory` consults: the metadata of the
`directory` argument (`none` when the path does not exist) and the outcome
of `fs::read_dir` on it, a fallible list of fallible entries. -/
structure DirWorld where
  target : Option FileType
  readDir : Except String (List (Except String RawEntry))

/-- `path.is_dir()` for the target path. -/
def targetIsDir (t : Option FileType) : Bool :=
  match t with
  | some FileType.dir => true
  | _ => false

/-- The default pattern `"*.inkfinite.json"` used when `pattern` is `None`. -/
def defaultPattern : List Char := "*.inkfinite.json".data

/-- The file filter of `read_directory`: if the pattern contains `'*'`,
strip every `'*'` (`pattern.replace('*', "")`) and test that the remainder
occurs as a substring of the name (`name.contains(..)`); otherwise test
that the name ends with the pattern (`name.ends_with(..)`). -/
def matchesPattern (pat name : List Char) : Bool :=
  if pat.contains '*' then
    decide ((pat.filter (fun c => c ≠ '*')) <:+: name)
  else
    decide (pat <:+ name)

/-- Build the `FileEntry` pushed by the loop body of `read_directory`. -/
def mkEntry (ent : RawEntry) (ft : FileType) : FileEntry :=
  { path := ent.path, name := ent.name, is_dir := ft.isDir }

/-- The entry loop of `read_directory`: a failing entry or a failing
metadata fetch aborts the whole computation with the corresponding error
message; a file whose name fails the pattern test is skipped (`continue`);
everything else is pushed in order. -/
def processEntries (pat : List Char) : List (Except String RawEntry) → Except String (List FileEntry)
  | [] => Except.ok []
  | c :: rest =>
    match c with
    | Except.error e => Except.error ("Failed to read entry: " ++ e)
    | Except.ok ent =>
      match ent.meta with
      | Except.error e => Except.error ("Failed to read metadata: " ++ e)
      | Except.ok ft =>
        let keep := if ft.isFile then matchesPattern pat ent.name else true
        match processEntries pat rest with
        | Except.error e => Except.error e
        | Except.ok tail => Except.ok (if keep then mkEntry ent ft :: tail else tail)

/-- Case-insensitive lexicographic comparison of names, as a boolean "not
greater" relation: Rust compares `a.name.to_lowercase()` with
`b.name.to_lowercase()` lexicographically. -/
def lexLe : List Char → List Char → Bool
  | [], _ => true
  | _ :: _, [] => false
  | a :: as, b :: bs => if a < b then true else if b < a then false else lexLe as bs

/-- `e.name.to_lowercase()` of an entry. -/
def lowerName (e : FileEntry) : List Char := e.name.map Char.toLower

/-- The sort comparator of `read_directory`, as the relation "the comparator
does not return `Greater`": directories before files, case-insensitive name
order within each group. -/
def entryLe (a b : FileEntry) : Bool :=
  if a.is_dir = b.is_dir then lexLe (lowerName a) (lowerName b)
  else if a.is_dir then true else false

/-- `read_directory(directory, pattern)`. -/
def read_directory (w : DirWorld) (directory : String) (pattern : Option (List Char)) :
    Except String (List FileEntry) :=
  if !w.target.isSome then
    Except.error ("Directory does not exist: " ++ directory)
  else if !targetIsDir w.target then
    Except.error ("Path is not a directory: " ++ directory)
  else
    match w.readDir with
    | Except.error e => Except.error ("Failed to read directory: " ++ e)
    | Except.ok entries =>
      let pat := pattern.getD defaultPattern
      match processEntries pat entries with
      | Except.error e => Except.error e
      | Except.ok results => Except.ok (results.mergeSort entryLe)

/-- A node of the file system seen by `rename_file` / `delete_file`. -/
inductive FsObj where
  | fileObj : List Char → FsObj
  | dirObj : FsObj
deriving DecidableEq, Repr

/-- File-system state: each path maps to a node or to nothing. -/
def FS := String → Option FsObj

/-- `path.exists()`. -/
def fsExists (fs : FS) (p : String) : Bool := (fs p).isSome

/-- `path.is_dir()`. -/
def fsIsDir (fs : FS) (p : String) : Bool :=
  match fs p with
  | some FsObj.dirObj => true
  | _ => false

/-- Result of a state-changing command: the file system afterwards and the
`Result<(), String>` value.  On an error path the Rust code performs no
file-system call, so the state is returned unchanged. -/
structure OpResult where
  fs : FS
  res : Except String Unit

/-- The underlying `fs::rename(old, new)` OS call, per POSIX `rename`
semantics over the `FS` state: renaming a non-directory onto an existing
directory fails with `EISDIR`, renaming a directory onto an existing
non-directory fails with `ENOTDIR` (the errno display text is abstracted to
its message); otherwise the node moves, silently replacing any previous
target node, and renaming a path onto itself is a successful no-op.
Failures not determined by the modelled state (permissions, cross-device,
a non-empty target directory — the model's directory nodes carry no
children) are idealized away, as for `fs::remove_file` in `delete_file`. -/
def fsRename (fs : FS) (old_path new_path : String) : Except String FS :=
  if fsIsDir fs new_path && !fsIsDir fs old_path then
    Except.error "Is a directory"
  else if fsExists fs new_path && !fsIsDir fs new_path && fsIsDir fs old_path then
    Except.error "Not a directory"
  else
    Except.ok (fun q => if q = new_path then fs old_path else if q = old_path then none else fs q)

/-- `rename_file(old_path, new_path)`: only the existence of `old_path` is
validated; then `fs::rename` is invoked, its error (if any) wrapped as
`Failed to rename file: ...` with the state unchanged. -/
def rename_file (fs : FS) (old_path new_path : String) : OpResult :=
  if !fsExists fs old_path then
    ⟨fs, Except.error ("Source file does not exist: " ++ old_path)⟩
  else
    match fsRename fs old_path new_path with
    | Except.error e => ⟨fs, Except.error ("Failed to rename file: " ++ e)⟩
    | Except.ok fs' => ⟨fs', Except.ok ()⟩

/-- `delete_file(file_path)`: the path must exist and must not be a
directory; then `fs::remove_file` removes it. -/
def delete_file (fs : FS) (file_path : String) : OpResult :=
  if !fsExists fs file_path then
    ⟨fs, Except.error ("File does not exist: " ++ file_path)⟩
  else if fsIsDir fs file_path then
    ⟨fs, Except.error ("Path is a directory, not a file: " ++ file_path)⟩
  else
    ⟨fun q => if q = file_path then none else fs q, Except.ok ()⟩

/-- `pick_workspace_directory`: `blocking_pick_folder` yields an optional
path (a dialog failure yields `None` just like a cancellation); the command
wraps it in `Ok` either way. -/
def pick_workspace_directory (dialogResult : Option String) : Except String (Option String) :=
  match dialogResult with
  | some path => Except.ok (some path)
  | none => Except.ok none

/-! ### Fixtures: concrete file systems and directory worlds -/

/-- A file system holding the single regular file `"a"`. -/
def fsSame : FS := fun q => if q = "a" then some (FsObj.fileObj ['x']) else none

/-- A file system holding the regular file `"f"` and the directory `"d"`. -/
def fsMixed : FS := fun q =>
  if q = "f" then some (FsObj.fileObj ['c']) else
  if q = "d" then some FsObj.dirObj else none

/-- A file system holding the regular files `"f"`, `"g"` and the directory
`"d"`. -/
def fsRich : FS := fun q =>
  if q = "f" then some (FsObj.fileObj ['c']) else
  if q = "g" then some (FsObj.fileObj ['z']) else
  if q = "d" then some FsObj.dirObj else none

/-! ### Claims about `delete_file`, `rename_file` and `pick_workspace_directory` -/

/-- Claim C3: `delete_file` fails with the NotFound-style message when the path
does not exist and with the IsADirectory-style message when the path is a
directory, leaving the file system unchanged on both error paths; on an
existing regular file it succeeds and the file no longer exists afterwards. -/
theorem delete_file_spec (fs : FS) (p : String) :
    (fsExists fs p = false →
      delete_file fs p = ⟨fs, Except.error ("File does not exist: " ++ p)⟩) ∧
    (fsIsDir fs p = true →
      delete_file fs p = ⟨fs, Except.error ("Path is a directory, not a file: " ++ p)⟩) ∧
    (∀ content, fs p = some (FsObj.fileObj content) →
      (delete_file fs p).res = Except.ok () ∧ (delete_file fs p).fs p = none) := by
  refine ⟨fun h => ?_, fun h => ?_, fun content h => ?_⟩
  · simp [delete_file, h]
  · have hex : fsExists fs p = true := by
      unfold fsIsDir at h
      unfold fsExists
      cases hfs : fs p <;> simp_all
    simp [delete_file, hex, h]
  · have hex : fsExists fs p = true := by simp [fsExists, h]
    have hdir : fsIsDir fs p = false := by simp [fsIsDir, h]
    simp [delete_file, hex, hdir]

/-- Concrete run of `delete_file` on a missing path, a directory and a file. -/
theorem delete_file_spec_witness :
    delete_file fsMixed "m" = ⟨fsMixed, Except.error ("File does not exist: " ++ "m")⟩ ∧
    delete_file fsMixed "d" = ⟨fsMixed, Except.error ("Path is a directory, not a file: " ++ "d")⟩ ∧
    ((delete_file fsMixed "f").res = Except.ok () ∧ (delete_file fsMixed "f").fs "f" = none) :=
  ⟨(delete_file_spec fsMixed "m").1 (by decide),
   (delete_file_spec fsMixed "d").2.1 (by decide),
   (delete_file_spec fsMixed "f").2.2 ['c'] (by decide)⟩

/-- Claim C4 counterexample: `rename_file` with `old_path = new_path = "a"` on a
file system where `"a"` is a regular file succeeds, yet `"a"` still exists
afterwards — refuting "on success, oldPath no longer exists" as stated. -/
theorem rename_file_same_path_counterexample :
    (rename_file fsSame "a" "a").res = Except.ok () ∧
    ((rename_file fsSame "a" "a").fs "a").isSome = true := by
  constructor <;> rfl

/-- Claim C4 (amended): `rename_file` fails with the NotFound-style message
whenever `old_path` does not exist; on success, `new_path` holds exactly the
node `old_path` held before the call, and — provided `old_path ≠ new_path` —
`old_path` no longer exists. -/
theorem rename_file_spec (fs : FS) (old_path new_path : String) :
    (fsExists fs old_path = false →
      rename_file fs old_path new_path =
        ⟨fs, Except.error ("Source file does not exist: " ++ old_path)⟩) ∧
    ((rename_file fs old_path new_path).res = Except.ok () →
      (rename_file fs old_path new_path).fs new_path = fs old_path ∧
      (old_path ≠ new_path → (rename_file fs old_path new_path).fs old_path = none)) := by
  constructor
  · intro h
    simp [rename_file, h]
  · intro h
    cases h1 : fsExists fs old_path with
    | false => simp [rename_file, h1] at h
    | true =>
      cases g1 : fsIsDir fs new_path && !fsIsDir fs old_path with
      | true => simp [rename_file, fsRename, h1, g1] at h
      | false =>
        cases g2 : fsExists fs new_path && !fsIsDir fs new_path && fsIsDir fs old_path with
        | true => simp [rename_file, fsRename, h1, g1, g2] at h
        | false =>
          refine ⟨?_, fun hne => ?_⟩
          · simp [rename_file, fsRename, h1, g1, g2]
          · simp [rename_file, fsRename, h1, g1, g2, hne]

/-- Concrete runs of `rename_file`: a missing source, and moving the file
`"a"` to the fresh path `"b"`. -/
theorem rename_file_spec_witness :
    rename_file fsSame "m" "n" =
      ⟨fsSame, Except.error ("Source file does not exist: " ++ "m")⟩ ∧
    (rename_file fsSame "a" "b").fs "b" = fsSame "a" ∧
    (rename_file fsSame "a" "b").fs "a" = none := by
  refine ⟨(rename_file_spec fsSame "m" "n").1 (by decide), ?_, ?_⟩
  · exact ((rename_file_spec fsSame "a" "b").2 (by decide)).1
  · exact ((rename_file_spec fsSame "a" "b").2 (by decide)).2 (by decide)

/-- Claim C10: `rename_file` validates only that `old_path` exists — a
directory source passes validation and the underlying rename is attempted on
it, the command forwarding the OS outcome exactly (errors wrapped as
`Failed to rename file: ...` with the state unchanged); no existence or type
check is made on `new_path`, so whenever the attempted rename succeeds any
previous node at `new_path` has been silently replaced by `old_path`'s node. -/
theorem rename_file_no_type_checks (fs : FS) (old_path new_path : String)
    (h : fsExists fs old_path = true) :
    (∀ fs', fsRename fs old_path new_path = Except.ok fs' →
      rename_file fs old_path new_path = ⟨fs', Except.ok ()⟩) ∧
    (∀ e, fsRename fs old_path new_path = Except.error e →
      rename_file fs old_path new_path =
        ⟨fs, Except.error ("Failed to rename file: " ++ e)⟩) ∧
    ((rename_file fs old_path new_path).res = Except.ok () →
      (rename_file fs old_path new_path).fs new_path = fs old_path) := by
  refine ⟨fun fs' hr => ?_, fun e hr => ?_, fun hok => ?_⟩
  · simp [rename_file, h, hr]
  · simp [rename_file, h, hr]
  · cases g1 : fsIsDir fs new_path && !fsIsDir fs old_path with
    | true => simp [rename_file, fsRename, h, g1] at hok
    | false =>
      cases g2 : fsExists fs new_path && !fsIsDir fs new_path && fsIsDir fs old_path with
      | true => simp [rename_file, fsRename, h, g1, g2] at hok
      | false => simp [rename_file, fsRename, h, g1, g2]

/-- Concrete runs: the directory `"d"` passes validation and the attempted
rename to the fresh path `"n"` goes through; renaming file `"f"` onto the
existing file `"g"` silently replaces `"g"`'s node. -/
theorem rename_file_no_type_checks_witness :
    (rename_file fsRich "d" "n").res = Except.ok () ∧
    (rename_file fsRich "f" "g").fs "g" = fsRich "f" := by
  refine ⟨?_, ?_⟩
  · have h := (rename_file_no_type_checks fsRich "d" "n" (by decide)).1
      (fun q => if q = "n" then fsRich "d" else if q = "d" then none else fsRich q) rfl
    rw [h]
  · exact ((rename_file_no_type_checks fsRich "f" "g" (by decide)).2.2) (by decide)

/-- Claim C7: `pick_workspace_directory` returns the chosen path when a folder
is selected and the absent result when the dialog yields nothing (cancellation
or dialog failure alike); it never returns the error variant. -/
theorem pick_workspace_directory_spec :
    pick_workspace_directory none = Except.ok none ∧
    (∀ p : String, pick_workspace_directory (some p) = Except.ok (some p)) ∧
    (∀ r : Option String, (pick_workspace_directory r).isOk = true) := by
  refine ⟨rfl, fun p => rfl, fun r => ?_⟩
  cases r <;> rfl

/-- Claim C5: `read_directory` fails with the NotFound-style message, carrying
the offending path, when the target does not exist, and with the
NotADirectory-style message, carrying the offending path, when the target
exists but is not a directory. -/
theorem read_directory_precondition_errors (w : DirWorld) (d : String) (p : Option (List Char)) :
    (w.target = none → read_directory w d p = Except.error ("Directory does not exist: " ++ d)) ∧
    (∀ ft, w.target = some ft → ft ≠ FileType.dir →
      read_directory w d p = Except.error ("Path is not a directory: " ++ d)) := by
  constructor
  · intro h
    simp [read_directory, h]
  · intro ft h hne
    cases ft <;> simp_all [read_directory, targetIsDir]

/-- Concrete runs of `read_directory` on a missing path and on a file path. -/
theorem read_directory_precondition_errors_witness :
    read_directory ⟨none, Except.ok []⟩ "p" none =
      Except.error ("Directory does not exist: " ++ "p") ∧
    read_directory ⟨some FileType.file, Except.ok []⟩ "p" none =
      Except.error ("Path is not a directory: " ++ "p") :=
  ⟨(read_directory_precondition_errors ⟨none, Except.ok []⟩ "p" none).1 rfl,
   (read_directory_precondition_errors ⟨some FileType.file, Except.ok []⟩ "p" none).2
     FileType.file rfl (by decide)⟩

/-! ### Helper lemmas about the comparator -/

/-- Head/tail characterization of `lexLe` on cons cells. -/
theorem lexLe_cons_iff (x y : Char) (xs ys : List Char) :
    lexLe (x :: xs) (y :: ys) = true ↔ x < y ∨ (x = y ∧ lexLe xs ys = true) := by
  simp only [lexLe]
  by_cases h1 : x < y
  · simp [h1]
  · by_cases h2 : y < x
    · have hne : ¬x = y := by
        intro he
        subst he
        exact absurd h2 h1
      simp [h1, h2, hne]
    · have he : x = y := le_antisymm (not_lt.mp h2) (not_lt.mp h1)
      simp [h1, h2, he]

/-- `lexLe` is transitive. -/
theorem lexLe_trans : ∀ (a b c : List Char),
    lexLe a b = true → lexLe b c = true → lexLe a c = true := by
  intro a
  induction a with
  | nil => intro b c _ _; rfl
  | cons x xs ih =>
    intro b c hab hbc
    cases b with
    | nil => exact absurd hab (by simp [lexLe])
    | cons y ys =>
      cases c with
      | nil => exact absurd hbc (by simp [lexLe])
      | cons z zs =>
        rw [lexLe_cons_iff] at hab hbc ⊢
        rcases hab with hxy | ⟨hxy, hxs⟩
        · rcases hbc with hyz | ⟨hyz, _⟩
          · exact Or.inl (lt_trans hxy hyz)
          · exact Or.inl (hyz ▸ hxy)
        · rcases hbc with hyz | ⟨hyz, hys⟩
          · exact Or.inl (hxy ▸ hyz)
          · exact Or.inr ⟨hxy.trans hyz, ih ys zs hxs hys⟩

/-- `lexLe` is total. -/
theorem lexLe_total : ∀ (a b : List Char), (lexLe a b || lexLe b a) = true := by
  intro a
  induction a with
  | nil => intro b; simp [lexLe]
  | cons x xs ih =>
    intro b
    cases b with
    | nil => simp [lexLe]
    | cons y ys =>
      rw [Bool.or_eq_true, lexLe_cons_iff, lexLe_cons_iff]
      rcases lt_trichotomy x y with h | h | h
      · exact Or.inl (Or.inl h)
      · rcases Bool.or_eq_true _ _ |>.mp (ih ys) with h' | h'
        · exact Or.inl (Or.inr ⟨h, h'⟩)
        · exact Or.inr (Or.inr ⟨h.symm, h'⟩)
      · exact Or.inr (Or.inl h)

/-- The sort comparator is transitive. -/
theorem entryLe_trans : ∀ (a b c : FileEntry),
    entryLe a b = true → entryLe b c = true → entryLe a c = true := by
  intro a b c hab hbc
  unfold entryLe at hab hbc ⊢
  cases ha : a.is_dir <;> cases hb : b.is_dir <;> cases hc : c.is_dir <;>
    simp_all <;> exact lexLe_trans _ _ _ hab hbc

/-- The sort comparator is total. -/
theorem entryLe_total : ∀ (a b : FileEntry), (entryLe a b || entryLe b a) = true := by
  intro a b
  unfold entryLe
  cases ha : a.is_dir <;> cases hb : b.is_dir <;> simp_all <;>
    exact (Bool.or_eq_true _ _).mp (lexLe_total _ _)

/-- What one comparator step gives: directories never follow files, and names
are in case-insensitive order within a group. -/
theorem entryLe_implies {a b : FileEntry} (h : entryLe a b = true) :
    (b.is_dir = true → a.is_dir = true) ∧
    (a.is_dir = b.is_dir → lexLe (lowerName a) (lowerName b) = true) := by
  unfold entryLe at h
  cases ha : a.is_dir <;> cases hb : b.is_dir <;> simp_all

/-! ### Helper lemmas about the entry loop -/

/-- A successful loop saw no failing entry and no failing metadata fetch. -/
theorem processEntries_ok_sound {pat : List Char} :
    ∀ {cs : List (Except String RawEntry)} {l : List FileEntry},
      processEntries pat cs = Except.ok l →
      ∀ c ∈ cs, ∃ ent ft, c = Except.ok ent ∧ ent.meta = Except.ok ft := by
  intro cs
  induction cs with
  | nil => intro l _ c hc; cases hc
  | cons c0 rest ih =>
    intro l h c hc
    cases c0 with
    | error err => simp [processEntries] at h
    | ok ent =>
      cases hm : ent.meta with
      | error err => simp [processEntries, hm] at h
      | ok ft =>
        cases hp : processEntries pat rest with
        | error err => simp [processEntries, hm, hp] at h
        | ok tail =>
          rcases List.mem_cons.mp hc with rfl | hc'
          · exact ⟨ent, ft, rfl, hm⟩
          · exact ih hp c hc'

/-- The condition under which the loop pushes an entry. -/
theorem keep_iff (ft : FileType) (pat name : List Char) :
    ((if ft.isFile then matchesPattern pat name else true) = true) ↔
      (ft = FileType.file → matchesPattern pat name = true) := by
  cases ft <;> simp [FileType.isFile]

/-- Membership in a successful loop result: exactly the entries whose
metadata was fetched and which are directories, non-files, or files whose
name passes the pattern test. -/
theorem processEntries_mem {pat : List Char} :
    ∀ {cs : List (Except String RawEntry)} {l : List FileEntry},
      processEntries pat cs = Except.ok l → ∀ e : FileEntry,
      (e ∈ l ↔ ∃ ent ft, Except.ok ent ∈ cs ∧ ent.meta = Except.ok ft ∧
        e = mkEntry ent ft ∧ (ft = FileType.file → matchesPattern pat ent.name = true)) := by
  intro cs
  induction cs with
  | nil =>
    intro l h e
    simp only [processEntries, Except.ok.injEq] at h
    subst h
    simp
  | cons c0 rest ih =>
    intro l h e
    cases c0 with
    | error err => simp [processEntries] at h
    | ok ent =>
      cases hm : ent.meta with
      | error err => simp [processEntries, hm] at h
      | ok ft =>
        cases hp : processEntries pat rest with
        | error err => simp [processEntries, hm, hp] at h
        | ok tail =>
          have hl : l = if (if ft.isFile then matchesPattern pat ent.name else true)
              then mkEntry ent ft :: tail else tail := by
            simp only [processEntries, hm, hp, Except.ok.injEq] at h
            exact h.symm
          subst hl
          have hrest := ih hp e
          constructor
          · intro hmem
            by_cases hk : (if ft.isFile then matchesPattern pat ent.name else true) = true
            · rw [if_pos hk] at hmem
              rcases List.mem_cons.mp hmem with rfl | hmem'
              · exact ⟨ent, ft, List.mem_cons_self _ _, hm, rfl, (keep_iff ft pat ent.name).mp hk⟩
              · obtain ⟨ent', ft', h1, h2, h3, h4⟩ := hrest.mp hmem'
                exact ⟨ent', ft', List.mem_cons_of_mem _ h1, h2, h3, h4⟩
            · rw [if_neg hk] at hmem
              obtain ⟨ent', ft', h1, h2, h3, h4⟩ := hrest.mp hmem
              exact ⟨ent', ft', List.mem_cons_of_mem _ h1, h2, h3, h4⟩
          · rintro ⟨ent', ft', h1, h2, h3, h4⟩
            rcases List.mem_cons.mp h1 with he' | h1'
            · have hee : ent' = ent := by
                injection he' with hee
              subst hee
              have hftft : ft' = ft := by
                rw [hm] at h2
                injection h2 with hft2
                exact hft2.symm
              subst hftft
              have hk : (if ft'.isFile then matchesPattern pat ent'.name else true) = true :=
                (keep_iff ft' pat ent'.name).mpr h4
              rw [if_pos hk]
              exact h3 ▸ List.mem_cons_self _ _
            · have hmem' : e ∈ tail := hrest.mpr ⟨ent', ft', h1', h2, h3, h4⟩
              by_cases hk : (if ft.isFile then matchesPattern pat ent.name else true) = true
              · rw [if_pos hk]; exact List.mem_cons_of_mem _ hmem'
              · rw [if_neg hk]; exact hmem'

/-- Inversion of a successful `read_directory` call: the directory read
succeeded, the loop succeeded, and the result is the sorted loop output. -/
theorem read_directory_ok_inv {w : DirWorld} {d : String} {p : Option (List Char)}
    {res : List FileEntry} (h : read_directory w d p = Except.ok res) :
    ∃ entries results, w.readDir = Except.ok entries ∧
      processEntries (p.getD defaultPattern) entries = Except.ok results ∧
      res = results.mergeSort entryLe := by
  unfold read_directory at h
  split at h
  · exact absurd h (by simp)
  · split at h
    · exact absurd h (by simp)
    · split at h
      · exact absurd h (by simp)
      · rename_i entries heq
        have h' : (match processEntries (p.getD defaultPattern) entries with
            | Except.error e => Except.error e
            | Except.ok results => Except.ok (results.mergeSort entryLe)) = Except.ok res := h
        split at h'
        · exact absurd h' (by simp)
        · rename_i results hpe
          refine ⟨entries, results, heq, hpe, ?_⟩
          injection h' with h''
          exact h''.symm

/-- A pattern made only of `'*'` characters (the empty pattern included)
accepts every name: the emptied substring check and the empty suffix check
both hold. -/
theorem matchesPattern_all_star {pat : List Char} (hstar : ∀ c ∈ pat, c = '*')
    (name : List Char) : matchesPattern pat name = true := by
  cases pat with
  | nil => simp [matchesPattern, List.nil_suffix]
  | cons c cs =>
    have hc : c = '*' := hstar c (List.mem_cons_self c cs)
    have hcontains : (c :: cs).contains '*' = true := by
      subst hc
      simp [List.contains_cons]
    have hfilter : (c :: cs).filter (fun x => decide (x ≠ '*')) = [] := by
      rw [List.filter_eq_nil_iff]
      intro a ha
      simp [hstar a ha]
    simp only [matchesPattern, hcontains, if_true, hfilter]
    exact decide_eq_true List.nil_infix

/-! ### Fixtures: concrete directory worlds -/

/-- A child file named `a.inkfinite.json`. -/
def wEnt : RawEntry :=
  ⟨"/w/a.inkfinite.json", "a.inkfinite.json".data, Except.ok FileType.file⟩

/-- A directory containing only `a.inkfinite.json`. -/
def wOne : DirWorld := ⟨some FileType.dir, Except.ok [Except.ok wEnt]⟩

/-- A child file named `x`. -/
def wStarEnt : RawEntry := ⟨"/w/x", "x".data, Except.ok FileType.file⟩

/-- A directory containing only the file `x`. -/
def wStar : DirWorld := ⟨some FileType.dir, Except.ok [Except.ok wStarEnt]⟩

/-- A child directory named `sub`. -/
def wDirEnt : RawEntry := ⟨"/w/sub", "sub".data, Except.ok FileType.dir⟩

/-- A directory containing only the subdirectory `sub`. -/
def wSub : DirWorld := ⟨some FileType.dir, Except.ok [Except.ok wDirEnt]⟩

/-! ### Claims about `read_directory` listings -/

/-- Claim C1: membership in a successful `read_directory` result — a child
directory (or any non-file child) is present regardless of pattern, and a
child file is present exactly when, with `P` the given pattern or the default
`*.inkfinite.json`, either `P` contains `'*'` and the name contains `P` with
all `'*'` removed (case-sensitively), or `P` has no `'*'` and the name ends
with `P`. -/
theorem read_directory_mem_characterization (w : DirWorld) (d : String)
    (p : Option (List Char)) (res : List FileEntry)
    (entries : List (Except String RawEntry))
    (h : read_directory w d p = Except.ok res) (he : w.readDir = Except.ok entries)
    (e : FileEntry) :
    e ∈ res ↔ ∃ ent ft, Except.ok ent ∈ entries ∧ ent.meta = Except.ok ft ∧
      e = mkEntry ent ft ∧
      (ft = FileType.file → matchesPattern (p.getD defaultPattern) ent.name = true) := by
  obtain ⟨entries', results, he', hp, hres⟩ := read_directory_ok_inv h
  rw [he] at he'
  injection he' with he''
  subst he''
  subst hres
  rw [List.Perm.mem_iff (List.mergeSort_perm results entryLe)]
  exact processEntries_mem hp e

/-- Concrete run: with the default pattern, the file `a.inkfinite.json` is
listed. -/
theorem read_directory_mem_characterization_witness :
    mkEntry wEnt FileType.file ∈ [mkEntry wEnt FileType.file] := by
  have h : read_directory wOne "w" none = Except.ok [mkEntry wEnt FileType.file] := by
    have h0 : read_directory wOne "w" none =
        Except.ok ([mkEntry wEnt FileType.file].mergeSort entryLe) := rfl
    rw [h0, List.mergeSort_singleton]
  exact (read_directory_mem_characterization wOne "w" none _ _ h rfl
      (mkEntry wEnt FileType.file)).mpr
    ⟨wEnt, FileType.file, by simp, rfl, rfl, fun _ => by decide⟩

/-- Claim C2: every successful `read_directory` result is sorted — all
directory entries precede all non-directory entries, and within each group
the lower-cased names are in non-decreasing lexicographic order. -/
theorem read_directory_sorted (w : DirWorld) (d : String) (p : Option (List Char))
    (res : List FileEntry) (h : read_directory w d p = Except.ok res) :
    res.Pairwise (fun a b => (b.is_dir = true → a.is_dir = true) ∧
      (a.is_dir = b.is_dir → lexLe (lowerName a) (lowerName b) = true)) := by
  obtain ⟨entries, results, he, hp, hres⟩ := read_directory_ok_inv h
  subst hres
  exact (List.sorted_mergeSort entryLe_trans entryLe_total results).imp
    (fun hab => entryLe_implies hab)

/-- Concrete run: the listing of a directory holding one subdirectory
satisfies the ordering invariant. -/
theorem read_directory_sorted_witness :
    List.Pairwise (fun a b => (b.is_dir = true → a.is_dir = true) ∧
      (a.is_dir = b.is_dir → lexLe (lowerName a) (lowerName b) = true))
      [mkEntry wDirEnt FileType.dir] := by
  have h : read_directory wSub "w" none = Except.ok [mkEntry wDirEnt FileType.dir] := by
    have h0 : read_directory wSub "w" none =
        Except.ok ([mkEntry wDirEnt FileType.dir].mergeSort entryLe) := rfl
    rw [h0, List.mergeSort_singleton]
  exact read_directory_sorted wSub "w" none _ h

/-- Claim C6: `read_directory` returns no partial results — on any successful
call, every child yielded by the directory read was itself read successfully
and its metadata fetch succeeded; a single failing child forces the whole
call into the error case. -/
theorem read_directory_no_partial (w : DirWorld) (d : String) (p : Option (List Char))
    (res : List FileEntry) (entries : List (Except String RawEntry))
    (h : read_directory w d p = Except.ok res) (he : w.readDir = Except.ok entries) :
    ∀ c ∈ entries, ∃ ent ft, c = Except.ok ent ∧ ent.meta = Except.ok ft := by
  obtain ⟨entries', results, he', hp, _⟩ := read_directory_ok_inv h
  rw [he] at he'
  injection he' with he''
  subst he''
  exact processEntries_ok_sound hp

/-- Concrete run: in a successful listing the single child was fully read. -/
theorem read_directory_no_partial_witness :
    ∃ ent ft, (Except.ok wEnt : Except String RawEntry) = Except.ok ent ∧
      ent.meta = Except.ok ft := by
  have h : read_directory wOne "w" none = Except.ok [mkEntry wEnt FileType.file] := by
    have h0 : read_directory wOne "w" none =
        Except.ok ([mkEntry wEnt FileType.file].mergeSort entryLe) := rfl
    rw [h0, List.mergeSort_singleton]
  exact read_directory_no_partial wOne "w" none _ _ h rfl (Except.ok wEnt) (by simp)

/-- Claim C9: when the pattern is the empty string or consists only of `'*'`
characters, every child file (with successfully fetched metadata) appears in
the successful listing. -/
theorem read_directory_trivial_pattern (w : DirWorld) (d : String) (pat : List Char)
    (res : List FileEntry) (entries : List (Except String RawEntry)) (ent : RawEntry)
    (hstar : ∀ c ∈ pat, c = '*')
    (h : read_directory w d (some pat) = Except.ok res)
    (he : w.readDir = Except.ok entries)
    (hent : Except.ok ent ∈ entries)
    (hft : ent.meta = Except.ok FileType.file) :
    mkEntry ent FileType.file ∈ res := by
  obtain ⟨entries', results, he', hp, hres⟩ := read_directory_ok_inv h
  rw [he] at he'
  injection he' with he''
  subst he''
  subst hres
  rw [List.Perm.mem_iff (List.mergeSort_perm results entryLe)]
  rw [processEntries_mem hp]
  exact ⟨ent, FileType.file, hent, hft, rfl,
    fun _ => matchesPattern_all_star hstar ent.name⟩

/-- Concrete run: with pattern `"*"`, the file `x` is listed. -/
theorem read_directory_trivial_pattern_witness :
    mkEntry wStarEnt FileType.file ∈ [mkEntry wStarEnt FileType.file] := by
  have h : read_directory wStar "w" (some ['*']) =
      Except.ok [mkEntry wStarEnt FileType.file] := by
    have h0 : read_directory wStar "w" (some ['*']) =
        Except.ok ([mkEntry wStarEnt FileType.file].mergeSort entryLe) := rfl
    rw [h0, List.mergeSort_singleton]
  exact read_directory_trivial_pattern wStar "w" ['*'] _ _ wStarEnt (by decide) h rfl
    (by simp) rfl
